/-
Verification of the GitHub aggregation & fallback layer of the
portofolio-marcel repository.

The TypeScript sources `src/lib/github-utils.ts`, `src/lib/projects-utils.ts`
and the `/api/github/repos/[repo]` route handler are shallowly embedded as
pure Lean functions.  Embedding conventions:

* Asynchronous upstream calls are closed over by an explicit environment
  (`GitHubEnv`) recording, for each endpoint, either the parsed JSON value
  or an `ApiFailure` (the `GitHubApiError` of the source: an optional HTTP
  status, `none` standing for a transport/network failure with no response).
* JavaScript objects used as string-keyed maps (`GitHubLanguage`,
  `languageCounts`, the repo lookup `Map`) are association lists in key
  insertion order, which is the enumeration order of `Object.entries`.
* `Array.prototype.sort` is, per the ECMAScript specification, a stable
  sort by the comparator; it is embedded as `List.mergeSort` (stable) with
  the relation `le a b := comparator a b ≤ 0`.
* Date strings are represented by their parsed epoch-millisecond value
  (`Int`), i.e. the result of `new Date(s).getTime()` used by the source.
* JavaScript numbers are embedded as `Nat`/`Int`/`ℚ` (exact arithmetic).
-/
import Mathlib

/-- A GitHub repository record, restricted to the fields the aggregation
layer reads (`src/types/github.ts`, interface GitHubRepository). -/
structure GitHubRepository where
  name : String
  description : Option String
  html_url : String
  language : Option String
  stargazers_count : Nat
  watchers_count : Nat
  forks_count : Nat
  open_issues_count : Nat
  size : Nat
  topics : List String
  created_at : Int
  updated_at : Int
  pushed_at : Int
  archived : Bool
  disabled : Bool
  fork : Bool
deriving DecidableEq, Repr

/-- Commit author block (`commit.author` / `commit.committer`), with the
date as parsed epoch milliseconds. -/
structure CommitAuthor where
  name : String
  email : String
  date : Int
deriving DecidableEq, Repr

/-- The nested `commit` object of a GitHub commit. -/
structure CommitInfo where
  author : CommitAuthor
  committer : CommitAuthor
  message : String
deriving DecidableEq, Repr

/-- A GitHub commit record, restricted to the fields the core logic reads. -/
structure GitHubCommit where
  sha : String
  commit : CommitInfo
deriving DecidableEq, Repr

/-- `GitHubLanguage`: a language-name → byte-count object, kept in key
insertion order. -/
abbrev GitHubLanguage := List (String × Nat)

/-- Derived per-repository statistics (`GitHubRepoStats`). -/
structure GitHubRepoStats where
  stars : Nat
  forks : Nat
  issues : Nat
  watchers : Nat
  size : Nat
  language : Option String
  languages : GitHubLanguage
  lastUpdated : Int
  createdAt : Int
  recentCommits : List GitHubCommit
deriving DecidableEq, Repr

/-- One entry of `mostUsedLanguages` in `GitHubStats`; the percentage is a
rational, embedding the JS number computed by `(bytes/total)*100`. -/
structure LanguageStat where
  language : String
  count : Nat
  percentage : ℚ
deriving DecidableEq, Repr

/-- Account-wide derived statistics (`GitHubStats`). -/
structure GitHubStats where
  totalRepositories : Nat
  totalStars : Nat
  totalForks : Nat
  totalCommits : Nat
  mostUsedLanguages : List LanguageStat
  recentActivity : List GitHubCommit
  repositories : List GitHubRepository
deriving DecidableEq, Repr

/-- The `GitHubApiError` of the source: an `Error` carrying an optional
HTTP status.  `status = none` models a transport/network failure (no HTTP
response); `status = some 404` the upstream not-found case, and so on. -/
structure ApiFailure where
  status : Option Nat
deriving DecidableEq, Repr

/-- Environment closing over the upstream API: the outcome of each
`githubApiRequest` call made by the fetchers, per endpoint. -/
structure GitHubEnv where
  userRepos : Except ApiFailure (List GitHubRepository)
  repoDetails : String → Except ApiFailure GitHubRepository
  repoLanguages : String → Except ApiFailure GitHubLanguage
  repoCommits : String → Except ApiFailure (List GitHubCommit)

/-- The comparator `(a, b) => new Date(b.updated_at).getTime() - new
Date(a.updated_at).getTime()` of github-utils.ts:39, as the relation
"a may stay before b" (comparator value ≤ 0). -/
def byUpdatedDesc (a b : GitHubRepository) : Bool :=
  decide (b.updated_at ≤ a.updated_at)

/-- `fetchUserRepositories` (github-utils.ts:27-44): on success, filters out
archived/disabled repositories and sorts by `updated_at` descending (stable
comparator sort `(a,b) => b.updated - a.updated`); on any upstream error
returns the empty list. -/
def fetchUserRepositories (env : GitHubEnv) : List GitHubRepository :=
  match env.userRepos with
  | .ok repositories =>
      (repositories.filter (fun repo => !repo.archived && !repo.disabled)).mergeSort
        byUpdatedDesc
  | .error _ => []

/-- `fetchRepositoryDetails` (github-utils.ts:49-62): both the 404 branch
and the generic catch branch of the source return `null`. -/
def fetchRepositoryDetails (env : GitHubEnv) (repoName : String) :
    Option GitHubRepository :=
  match env.repoDetails repoName with
  | .ok repository => some repository
  | .error apiError =>
      if apiError.status = some 404 then none else none

/-- `fetchRepositoryLanguages` (github-utils.ts:67-80): empty object on 404
and on any other failure. -/
def fetchRepositoryLanguages (env : GitHubEnv) (repoName : String) :
    GitHubLanguage :=
  match env.repoLanguages repoName with
  | .ok languages => languages
  | .error apiError =>
      if apiError.status = some 404 then [] else []

/-- `fetchRepositoryCommits` (github-utils.ts:85-103): slices the upstream
answer to `limit`, empty list on 404 and on any other failure. -/
def fetchRepositoryCommits (env : GitHubEnv) (repoName : String)
    (limit : Nat := 10) : List GitHubCommit :=
  match env.repoCommits repoName with
  | .ok commits => commits.take limit
  | .error apiError =>
      if apiError.status = some 404 then [] else []

/-- `Object.values(languages).reduce((sum, bytes) => sum + bytes, 0)`
(github-utils.ts:121). -/
def totalLanguageBytes (languages : GitHubLanguage) : Nat :=
  (languages.map (fun p => p.2)).foldl (fun sum bytes => sum + bytes) 0

/-- Primary-language computation (github-utils.ts:122-124):
`Object.entries(languages).sort(([,a],[,b]) => b - a)[0][0]` when the byte
total is positive, `null` otherwise.  Indexing `[0]` is embedded as
`head?` (the guard makes the sorted list non-empty). -/
def primaryLanguage (languages : GitHubLanguage) : Option String :=
  if totalLanguageBytes languages > 0 then
    ((languages.mergeSort (fun p q => decide (q.2 ≤ p.2))).head?).map
      (fun p => p.1)
  else none

/-- `getRepositoryStats` (github-utils.ts:108-142).  The three sub-fetches
are joined with `Promise.all`; none of them can throw (each catches its own
failures), so the surrounding try/catch of the source is inert and the
function is total. -/
def getRepositoryStats (env : GitHubEnv) (repoName : String) :
    Option GitHubRepoStats :=
  let repoDetails := fetchRepositoryDetails env repoName
  let languages := fetchRepositoryLanguages env repoName
  let commits := fetchRepositoryCommits env repoName 5
  match repoDetails with
  | none => none
  | some repo =>
      some {
        stars := repo.stargazers_count
        forks := repo.forks_count
        issues := repo.open_issues_count
        watchers := repo.watchers_count
        size := repo.size
        language := primaryLanguage languages
        languages := languages
        lastUpdated := repo.updated_at
        createdAt := repo.created_at
        recentCommits := commits }

/-- Insert-or-add update of the shared `languageCounts` object
(github-utils.ts:159-161): `languageCounts[language] =
(languageCounts[language] || 0) + bytes`, new keys appended in insertion
order. -/
def addLanguageBytes : List (String × Nat) → String → Nat →
    List (String × Nat)
  | [], language, bytes => [(language, bytes)]
  | (k, v) :: rest, language, bytes =>
      if k = language then (k, v + bytes) :: rest
      else (k, v) :: addLanguageBytes rest language bytes

/-- Merge one repository's language breakdown into the running counts
(the body of one `languagePromises` task). -/
def mergeLanguages (counts : List (String × Nat)) (languages : GitHubLanguage) :
    List (String × Nat) :=
  languages.foldl (fun cs p => addLanguageBytes cs p.1 p.2) counts

/-- The account-wide `languageCounts` map built by the `languagePromises`
fan-out (github-utils.ts:156-164), with tasks resolving in list order (the
claims proved below do not depend on the resolution order). -/
def accountLanguageCounts (env : GitHubEnv)
    (repositories : List GitHubRepository) : List (String × Nat) :=
  repositories.foldl
    (fun counts repo => mergeLanguages counts (fetchRepositoryLanguages env repo.name))
    []

/-- `totalLanguageBytes` over the merged account-wide map
(github-utils.ts:167). -/
def accountTotalBytes (env : GitHubEnv)
    (repositories : List GitHubRepository) : Nat :=
  totalLanguageBytes (accountLanguageCounts env repositories)

/-- The comparator `(a, b) => b.count - a.count` of github-utils.ts:174. -/
def byCountDesc (a b : LanguageStat) : Bool :=
  decide (b.count ≤ a.count)

/-- `mostUsedLanguages` (github-utils.ts:168-175): map to
language/count/percentage records, stable sort by count descending,
truncate to the top 10. -/
def mostUsedLanguagesOf (env : GitHubEnv)
    (repositories : List GitHubRepository) : List LanguageStat :=
  let counts := accountLanguageCounts env repositories
  let total := accountTotalBytes env repositories
  ((counts.map (fun p =>
      { language := p.1
        count := p.2
        percentage := if total > 0 then ((p.2 : ℚ) / (total : ℚ)) * 100 else 0
        : LanguageStat })).mergeSort byCountDesc).take 10

/-- The comparator on author dates of github-utils.ts:184. -/
def byAuthorDateDesc (a b : GitHubCommit) : Bool :=
  decide (b.commit.author.date ≤ a.commit.author.date)

/-- `recentActivity` (github-utils.ts:178-185): up to 3 commits from each of
the 5 most recently updated repositories, flattened, sorted by author date
descending (stable), truncated to 10. -/
def recentActivityOf (env : GitHubEnv)
    (repositories : List GitHubRepository) : List GitHubCommit :=
  ((((repositories.take 5).map
      (fun repo => fetchRepositoryCommits env repo.name 3)).flatten).mergeSort
    byAuthorDateDesc).take 10

/-- `getGitHubStats` (github-utils.ts:147-208).  The body is total in the
embedding (every fallible sub-call absorbs its own failures), so the
catch-all fallback branch of the source is unreachable; the empty-state
fallback is realised by `fetchUserRepositories` returning `[]`. -/
def getGitHubStats (env : GitHubEnv) : GitHubStats :=
  let repositories := fetchUserRepositories env
  { totalRepositories := repositories.length
    totalStars := repositories.foldl (fun sum repo => sum + repo.stargazers_count) 0
    totalForks := repositories.foldl (fun sum repo => sum + repo.forks_count) 0
    totalCommits := (recentActivityOf env repositories).length
    mostUsedLanguages := mostUsedLanguagesOf env repositories
    recentActivity := recentActivityOf env repositories
    repositories := repositories }

/-- A catalog entry (`ProjectConfig`, projects-utils.ts:10-20). -/
structure ProjectConfig where
  id : String
  title : String
  description : String
  technologies : List String
  githubUrl : Option String
  liveUrl : Option String
  featured : Bool
  priority : Option Int
  githubData : Option GitHubRepoStats
deriving DecidableEq, Repr

/-- Sort keys accepted by `ProjectFilters.sortBy`. -/
inductive ProjectSortBy where
  | stars
  | updated
  | created
  | name
deriving DecidableEq, Repr

/-- Sort directions accepted by `ProjectFilters.sortOrder`. -/
inductive ProjectSortOrder where
  | asc
  | desc
deriving DecidableEq, Repr

/-- Filtering knobs (`ProjectFilters`, projects-utils.ts:22-33).  Numeric
fields are `Nat`-valued as in every call site of the source. -/
structure ProjectFilters where
  minStars : Option Nat := none
  minForks : Option Nat := none
  maxAge : Option Nat := none
  requiredTopics : Option (List String) := none
  excludeTopics : Option (List String) := none
  excludeForks : Option Bool := none
  excludeArchived : Option Bool := none
  limit : Option Nat := none
  sortBy : Option ProjectSortBy := none
  sortOrder : Option ProjectSortOrder := none
deriving DecidableEq, Repr

/-- The hand-curated static fallback catalog (`STATIC_PROJECTS`,
projects-utils.ts:38-72). -/
def STATIC_PROJECTS : List ProjectConfig :=
  [ { id := "portfolio-marcel"
      title := "Portfolio Website"
      description := "Modern, responsive portfolio website built with Next.js 15, TypeScript, and Tailwind CSS. Features include smooth animations, dark mode support, and optimized performance."
      technologies := ["Next.js", "TypeScript", "Tailwind CSS", "Framer Motion"]
      githubUrl := some "https://github.com/Cyrochrome/portofolio-marcel"
      liveUrl := some "https://portofolio-marcel.vercel.app"
      featured := true
      priority := some 1
      githubData := none },
    { id := "nuxt-gemini-chatbot"
      title := "AI Chatbot with Nuxt"
      description := "Interactive chatbot application built with Nuxt.js and integrated with Gemini AI. Features natural language processing and modern Vue.js architecture."
      technologies := ["Nuxt.js", "Vue.js", "Gemini AI", "JavaScript"]
      githubUrl := some "https://github.com/Cyrochrome/nuxt-gemini-chatbot"
      liveUrl := some "https://example.com"
      featured := true
      priority := some 2
      githubData := none },
    { id := "bimbel-alfa"
      title := "Bimbel Landing Page"
      description := "Modern landing page for Bimbel Alfa, a tutoring and educational services platform. Features responsive design, engaging content sections, and conversion-optimized layout."
      technologies := ["TypeScript", "React", "Node.js", "Tailwind CSS"]
      githubUrl := some "https://github.com/Cyrochrome/bimbel-alfa"
      liveUrl := some "https://example.com"
      featured := true
      priority := some 3
      githubData := none } ]

/-- Path components of a URL as computed by
`new URL(u).pathname.split("/").filter(Boolean)`
(projects-utils.ts:161-162), embedded for `scheme://host/path` URLs: the
text after the scheme is split on `/`, the leading host component dropped
and empty components filtered out.  A string without a single
`scheme://` prefix makes the `URL` constructor throw, embedded as `none`. -/
def urlPathParts (url : String) : Option (List String) :=
  match url.splitOn "://" with
  | [scheme, rest] =>
      if scheme.isEmpty then none
      else some (((rest.splitOn "/").drop 1).filter (fun s => !s.isEmpty))
  | _ => none

/-- `getRepoNameFromProject` (projects-utils.ts:157-167): the second path
component of the project's GitHub URL, `null` when absent, empty or when
URL parsing throws (JS `pathParts[1] || null`). -/
def getRepoNameFromProject (project : ProjectConfig) : Option String :=
  match project.githubUrl with
  | none => none
  | some url =>
      match urlPathParts url with
      | none => none
      | some pathParts =>
          match pathParts.get? 1 with
          | none => none
          | some s => if s.isEmpty then none else some s

/-- `Map.set` over the repo lookup map keyed by lowercased name
(projects-utils.ts:96-99): replaces the value of an existing key, appends
new keys. -/
def repoMapSet : List (String × GitHubRepository) → String → GitHubRepository →
    List (String × GitHubRepository)
  | [], key, repo => [(key, repo)]
  | (k, v) :: rest, key, repo =>
      if k = key then (key, repo) :: rest
      else (k, v) :: repoMapSet rest key repo

/-- `Map.get` over the repo lookup map. -/
def repoMapGet (m : List (String × GitHubRepository)) (key : String) :
    Option GitHubRepository :=
  (m.find? (fun p => p.1 == key)).map (fun p => p.2)

/-- The per-entry enhancement attempt of `getEnhancedProjects`
(projects-utils.ts:103-128): resolve the repository name from the entry's
GitHub URL, look it up in the live repo map, and on a hit attach
`getRepositoryStats`; every failure path returns the entry unchanged,
including the defensive catch around `getRepositoryStats` (whose embedding
is total, so the catch is inert). -/
def enhanceProject (env : GitHubEnv)
    (githubRepoMap : List (String × GitHubRepository))
    (project : ProjectConfig) : ProjectConfig :=
  match project.githubUrl with
  | none => project
  | some _ =>
      match getRepoNameFromProject project with
      | none => project
      | some name =>
          match repoMapGet githubRepoMap name.toLower with
          | none => project
          | some _ =>
              match getRepositoryStats env name with
              | some githubStats => { project with githubData := some githubStats }
              | none => project

/-- `getEnhancedProjects` (projects-utils.ts:79-139): static list when no
live repositories are available, otherwise the static list with each entry
independently best-effort enhanced.  The body is total in the embedding, so
the outer catch-all fallback is unreachable. -/
def getEnhancedProjects (env : GitHubEnv) : List ProjectConfig :=
  let projects := STATIC_PROJECTS
  let githubRepos := fetchUserRepositories env
  if githubRepos.length = 0 then projects
  else
    let githubRepoMap :=
      githubRepos.foldl (fun m repo => repoMapSet m repo.name.toLower repo) []
    projects.map (enhanceProject env githubRepoMap)

/-- The effective sort key of `processProjectsForDisplay`'s comparator
`(a.priority || 999) - (b.priority || 999)`: JS `||` replaces both a
missing priority and the falsy priority `0` by the default `999`. -/
def effectivePriority (project : ProjectConfig) : Int :=
  match project.priority with
  | some p => if p = 0 then 999 else p
  | none => 999

/-- The comparator `(a, b) => (a.priority || 999) - (b.priority || 999)`
of projects-utils.ts:175. -/
def displayPriorityLe (a b : ProjectConfig) : Bool :=
  decide (effectivePriority a ≤ effectivePriority b)

/-- `processProjectsForDisplay` (projects-utils.ts:172-176): keep featured
entries, stable-sort ascending by effective priority. -/
def processProjectsForDisplay (projects : List ProjectConfig) :
    List ProjectConfig :=
  (projects.filter (fun project => project.featured)).mergeSort
    displayPriorityLe

/-- JS `String.prototype.includes`: `t` occurs as a contiguous substring of
`s` (always true for the empty needle, since `[]` is an infix of every
list). -/
def jsIncludes (s t : String) : Bool :=
  decide (t.data <:+: s.data)

/-- The `localeCompare`-style three-way comparison of `name` sorting,
embedded as code-point string comparison. -/
def strCompare (a b : String) : Int :=
  if a < b then -1 else if a = b then 0 else 1

/-- The comparator body of `applyProjectFilters`'s sort
(projects-utils.ts:240-261): a signed comparison by the selected key,
negated for descending order. -/
def repoComparison (sortBy : ProjectSortBy) (a b : GitHubRepository) : Int :=
  match sortBy with
  | .stars => (a.stargazers_count : Int) - (b.stargazers_count : Int)
  | .updated => a.updated_at - b.updated_at
  | .created => a.created_at - b.created_at
  | .name => strCompare a.name b.name

/-- Archived-exclusion block (projects-utils.ts:188-190): applied unless
`excludeArchived` is explicitly `false`. -/
def excludeArchivedStep (filters : ProjectFilters)
    (filtered : List GitHubRepository) : List GitHubRepository :=
  if filters.excludeArchived ≠ some false then
    filtered.filter (fun repo => !repo.archived)
  else filtered

/-- Fork-exclusion block (projects-utils.ts:193-195). -/
def excludeForksStep (filters : ProjectFilters)
    (filtered : List GitHubRepository) : List GitHubRepository :=
  if filters.excludeForks = some true then
    filtered.filter (fun repo => !repo.fork)
  else filtered

/-- Minimum-stars block (projects-utils.ts:198-200); a `minStars` of `0` is
falsy and disables the filter. -/
def minStarsStep (filters : ProjectFilters)
    (filtered : List GitHubRepository) : List GitHubRepository :=
  match filters.minStars with
  | some m =>
      if m ≠ 0 then filtered.filter (fun repo => decide (m ≤ repo.stargazers_count))
      else filtered
  | none => filtered

/-- Minimum-forks block (projects-utils.ts:203-205). -/
def minForksStep (filters : ProjectFilters)
    (filtered : List GitHubRepository) : List GitHubRepository :=
  match filters.minForks with
  | some m =>
      if m ≠ 0 then filtered.filter (fun repo => decide (m ≤ repo.forks_count))
      else filtered
  | none => filtered

/-- Maximum-age block (projects-utils.ts:208-212): keep repositories
updated within the last `maxAge` days before `now` (in epoch
milliseconds). -/
def maxAgeStep (now : Int) (filters : ProjectFilters)
    (filtered : List GitHubRepository) : List GitHubRepository :=
  match filters.maxAge with
  | some d =>
      if d ≠ 0 then
        filtered.filter (fun repo => decide (now - (d : Int) * 86400000 ≤ repo.updated_at))
      else filtered
  | none => filtered

/-- Required-topics block (projects-utils.ts:215-223): keep repositories
with at least one topic matching (case-insensitive substring) one of the
required topics. -/
def requiredTopicsStep (filters : ProjectFilters)
    (filtered : List GitHubRepository) : List GitHubRepository :=
  match filters.requiredTopics with
  | some topics =>
      if topics.length > 0 then
        filtered.filter (fun repo =>
          topics.any (fun topic =>
            repo.topics.any (fun repoTopic =>
              jsIncludes repoTopic.toLower topic.toLower)))
      else filtered
  | none => filtered

/-- Excluded-topics block (projects-utils.ts:226-234). -/
def excludeTopicsStep (filters : ProjectFilters)
    (filtered : List GitHubRepository) : List GitHubRepository :=
  match filters.excludeTopics with
  | some topics =>
      if topics.length > 0 then
        filtered.filter (fun repo =>
          !(topics.any (fun topic =>
            repo.topics.any (fun repoTopic =>
              jsIncludes repoTopic.toLower topic.toLower))))
      else filtered
  | none => filtered

/-- Sorting block (projects-utils.ts:236-261): stable sort by the selected
key, direction-flipped comparator for descending order (the default). -/
def sortStep (filters : ProjectFilters)
    (filtered : List GitHubRepository) : List GitHubRepository :=
  let sortBy := filters.sortBy.getD ProjectSortBy.updated
  let sortOrder := filters.sortOrder.getD ProjectSortOrder.desc
  filtered.mergeSort (fun a b =>
    decide ((if sortOrder = ProjectSortOrder.asc then repoComparison sortBy a b
             else -(repoComparison sortBy a b)) ≤ 0))

/-- Limit block (projects-utils.ts:264-266): a `limit` of `0` is falsy and
is not applied. -/
def limitStep (filters : ProjectFilters)
    (filtered : List GitHubRepository) : List GitHubRepository :=
  match filters.limit with
  | some n => if n ≠ 0 then filtered.take n else filtered
  | none => filtered

/-- `applyProjectFilters` (projects-utils.ts:181-269): the filter blocks,
the sort and the limit applied in source order.  The source copies the
input array before filtering and sorts the copy in place, so the input is
never mutated — inherent in this pure embedding. -/
def applyProjectFilters (now : Int) (repositories : List GitHubRepository)
    (filters : ProjectFilters) : List GitHubRepository :=
  limitStep filters
    (sortStep filters
      (excludeTopicsStep filters
        (requiredTopicsStep filters
          (maxAgeStep now filters
            (minForksStep filters
              (minStarsStep filters
                (excludeForksStep filters
                  (excludeArchivedStep filters repositories))))))))

/-- `convertGitHubRepoToProject` (projects-utils.ts:274-303). -/
def convertGitHubRepoToProject (repo : GitHubRepository) : ProjectConfig :=
  let technologies :=
    (match repo.language with
     | some language => [language]
     | none => []) ++
    ((repo.topics.filter (fun topic =>
        !(["portfolio", "personal", "learning", "practice", "example"].contains
            topic.toLower))).take 4)
  let description :=
    match repo.description with
    | some d => d
    | none =>
        repo.name ++ " - A " ++
          (match repo.language with
           | some language => language
           | none => "software") ++
          " project showcasing development skills and techniques."
  { id := repo.name
    title := repo.name
    description := description
    technologies := technologies
    githubUrl := some repo.html_url
    liveUrl := none
    featured := repo.stargazers_count > 0 || repo.topics.contains "featured"
    priority := some ((repo.stargazers_count : Int) * 10 + (repo.forks_count : Int) * 5)
    githubData := none }

/-- The JSON envelope of the `/api/github/repos/[repo]` handler, with the
HTTP status it is sent with. -/
structure ApiResponse where
  status : Nat
  success : Bool
  error : Option String
  data : Option GitHubRepoStats
deriving DecidableEq, Repr

/-- Owner-prefix normalisation of the route (route.ts:116-120). -/
def fullRepoName (repo : String) : String :=
  if jsIncludes repo "/" then repo else "Cyrochrome/" ++ repo

/-- The status dispatch of the route's catch block (route.ts:157-188):
503 when the escaped error message mentions `fetch`, 429 when it mentions
`rate limit`, 500 otherwise.  The try-block body is total in the embedding
(`getRepositoryStats` absorbs every upstream failure), so no request
actually reaches this dispatch. -/
def routeCatchStatus (message : String) : Nat :=
  if jsIncludes message "fetch" then 503
  else if jsIncludes message "rate limit" then 429
  else 500

/-- The `GET /api/github/repos/[repo]` handler (route.ts:97-190), reachable
paths: 400 on an empty/blank name, 404 when `getRepositoryStats` resolves
to `null`, 200 otherwise.  The guard `!repo || repo.trim() === ""` of the
source accepts exactly the strings with a non-whitespace character, embedded
as `repo.data.all Char.isWhitespace` being false.  The second format check
of the source (`!fullRepoName.includes("/")`) is kept even though the
normalisation just before makes it dead. -/
def getGithubRepoRoute (env : GitHubEnv) (repo : String) : ApiResponse :=
  if repo.data.all Char.isWhitespace then
    { status := 400, success := false
      error := some "Repository name is required", data := none }
  else
    let full := fullRepoName repo
    if !(jsIncludes full "/") then
      { status := 400, success := false
        error := some "Invalid repository format", data := none }
    else
      match getRepositoryStats env full with
      | none =>
          { status := 404, success := false
            error := some "Repository not found or inaccessible", data := none }
      | some stats =>
          { status := 200, success := true, error := none, data := some stats }

/-- Spec-side characterisation of primary-language resolution (spec §4.4):
the first-encountered entry of the breakdown holding the maximum byte
count, compared against the sort-based computation of the source. -/
def specFirstMaxLanguage (languages : GitHubLanguage) : Option String :=
  (languages.find? (fun p => languages.all (fun q => decide (q.2 ≤ p.2)))).map
    (fun p => p.1)

theorem mergeSort_pair {α : Type} (le : α → α → Bool) (a b : α) :
    List.mergeSort [a, b] le = if le a b then [a, b] else [b, a] := by
  rw [List.mergeSort]
  have h : List.splitInTwo (⟨[a, b], rfl⟩ : { l : List α // l.length = 2 }) =
      (⟨[a], rfl⟩, ⟨[b], rfl⟩) := rfl
  rw [h]
  by_cases hab : le a b
  · simp [List.merge, hab]
  · simp [List.merge, hab]

theorem find?_of_stronger_pred {α : Type} (P Q : α → Bool)
    (hPQ : ∀ x, P x = true → Q x = true) :
    ∀ (t : List α) (b : α), t.find? Q = some b → P b = true →
      t.find? P = some b
  | [], b, h, _ => by simp at h
  | c :: t, b, h, hPb => by
    by_cases hQ : Q c = true
    · rw [List.find?_cons_of_pos _ hQ] at h
      obtain rfl : c = b := by injection h
      rw [List.find?_cons_of_pos _ hPb]
    · have hP : ¬ P c = true := fun hp => hQ (hPQ c hp)
      rw [List.find?_cons_of_neg _ hQ] at h
      rw [List.find?_cons_of_neg _ hP]
      exact find?_of_stronger_pred P Q hPQ t b h hPb

theorem head_mergeSort_desc (l : List (String × Nat)) :
    (l.mergeSort (fun p q => decide (q.2 ≤ p.2))).head? =
      l.find? (fun p => l.all (fun q => decide (q.2 ≤ p.2))) := by
  induction l with
  | nil => simp
  | cons a t ih =>
    have htrans : ∀ x y z : String × Nat,
        (fun p q : String × Nat => decide (q.2 ≤ p.2)) x y →
        (fun p q : String × Nat => decide (q.2 ≤ p.2)) y z →
        (fun p q : String × Nat => decide (q.2 ≤ p.2)) x z := by
      intro x y z h1 h2
      simp only [decide_eq_true_eq] at *
      omega
    have htotal : ∀ x y : String × Nat,
        (fun p q : String × Nat => decide (q.2 ≤ p.2)) x y ||
        (fun p q : String × Nat => decide (q.2 ≤ p.2)) y x := by
      intro x y
      simp only [Bool.or_eq_true, decide_eq_true_eq]
      omega
    obtain ⟨l₁, l₂, h₁, h₂, h₃⟩ := List.mergeSort_cons htrans htotal a t
    cases l₁ with
    | nil =>
      simp only [List.nil_append] at h₁ h₂
      rw [h₁]
      have hsorted := List.sorted_mergeSort htrans htotal (a :: t)
      rw [h₁] at hsorted
      have hall : ((a :: t).all (fun q => decide (q.2 ≤ a.2))) = true := by
        rw [List.all_eq_true]
        intro q hq
        rcases List.mem_cons.mp hq with rfl | hq
        · simp
        · have hq2 : q ∈ l₂ := by
            rw [← h₂]
            exact List.mem_mergeSort.mpr hq
          exact List.rel_of_pairwise_cons hsorted hq2
      rw [List.find?_cons_of_pos
        (p := fun p => (a :: t).all fun q => decide (q.2 ≤ p.2)) t hall]
      rfl
    | cons b l₁ =>
      rw [h₁]
      have hbt : b ∈ t := by
        have hmem : b ∈ List.mergeSort t (fun p q => decide (q.2 ≤ p.2)) := by
          rw [h₂]
          exact List.mem_append.mpr (Or.inl (List.mem_cons_self b l₁))
        exact List.mem_mergeSort.mp hmem
      have hba : ¬ (b.2 ≤ a.2) := by
        have := h₃ b (List.mem_cons_self b l₁)
        simpa using this
      have hPa : ¬ (((a :: t).all (fun q => decide (q.2 ≤ a.2))) = true) := by
        rw [List.all_eq_true]
        intro hcontra
        exact hba (by simpa using hcontra b (List.mem_cons_of_mem a hbt))
      rw [List.find?_cons_of_neg
        (p := fun p => (a :: t).all fun q => decide (q.2 ≤ p.2)) t hPa]
      have hheadt : (List.mergeSort t (fun p q => decide (q.2 ≤ p.2))).head? =
          some b := by
        rw [h₂]
        rfl
      have hfindQ : t.find? (fun p => t.all (fun q => decide (q.2 ≤ p.2))) =
          some b := by
        rw [← ih]
        exact hheadt
      have hQb := List.find?_some hfindQ
      have hPb : ((a :: t).all (fun q => decide (q.2 ≤ b.2))) = true := by
        rw [List.all_cons]
        refine Bool.and_eq_true_iff.mpr ⟨by simp only [decide_eq_true_eq]; omega, hQb⟩
      have := find?_of_stronger_pred
        (fun p => (a :: t).all (fun q => decide (q.2 ≤ p.2)))
        (fun p => t.all (fun q => decide (q.2 ≤ p.2)))
        (by
          intro x hx
          have hx2 : ((a :: t).all fun q => decide (q.2 ≤ x.2)) = true := hx
          rw [List.all_cons] at hx2
          exact (Bool.and_eq_true_iff.mp hx2).2)
        t b hfindQ hPb
      rw [this]
      rfl

theorem primaryLanguage_eq_specFirstMax (languages : GitHubLanguage) :
    primaryLanguage languages =
      if totalLanguageBytes languages = 0 then none
      else specFirstMaxLanguage languages := by
  unfold primaryLanguage specFirstMaxLanguage
  by_cases h : totalLanguageBytes languages = 0
  · simp [h]
  · have hpos : totalLanguageBytes languages > 0 := Nat.pos_of_ne_zero h
    rw [if_pos hpos, if_neg h, head_mergeSort_desc]

/-- C4: for every language breakdown, the resolved primary language is
`null` when the byte total is 0 (in particular for the empty map) and
otherwise the maximum-byte-count language with ties broken in favour of the
first-encountered key (`specFirstMaxLanguage`); concretely,
`{Go: 500, TS: 1500}` resolves to `TS`. -/
theorem primaryLanguage_resolution :
    (∀ languages : GitHubLanguage,
        primaryLanguage languages =
          if totalLanguageBytes languages = 0 then none
          else specFirstMaxLanguage languages) ∧
    primaryLanguage [("Go", 500), ("TS", 1500)] = some "TS" ∧
    primaryLanguage ([] : GitHubLanguage) = none := by
  refine ⟨primaryLanguage_eq_specFirstMax, ?_, rfl⟩
  unfold primaryLanguage
  rw [if_pos (by norm_num [totalLanguageBytes]), mergeSort_pair]
  norm_num

theorem excludeArchivedStep_mem (filters : ProjectFilters)
    (l : List GitHubRepository) (x : GitHubRepository)
    (hx : x ∈ excludeArchivedStep filters l) : x ∈ l := by
  unfold excludeArchivedStep at hx
  split at hx
  · exact List.mem_of_mem_filter hx
  · exact hx

theorem excludeForksStep_mem (filters : ProjectFilters)
    (l : List GitHubRepository) (x : GitHubRepository)
    (hx : x ∈ excludeForksStep filters l) : x ∈ l := by
  unfold excludeForksStep at hx
  split at hx
  · exact List.mem_of_mem_filter hx
  · exact hx

theorem minStarsStep_mem (filters : ProjectFilters)
    (l : List GitHubRepository) (x : GitHubRepository)
    (hx : x ∈ minStarsStep filters l) : x ∈ l := by
  unfold minStarsStep at hx
  split at hx
  · split at hx
    · exact List.mem_of_mem_filter hx
    · exact hx
  · exact hx

theorem minForksStep_mem (filters : ProjectFilters)
    (l : List GitHubRepository) (x : GitHubRepository)
    (hx : x ∈ minForksStep filters l) : x ∈ l := by
  unfold minForksStep at hx
  split at hx
  · split at hx
    · exact List.mem_of_mem_filter hx
    · exact hx
  · exact hx

theorem maxAgeStep_mem (now : Int) (filters : ProjectFilters)
    (l : List GitHubRepository) (x : GitHubRepository)
    (hx : x ∈ maxAgeStep now filters l) : x ∈ l := by
  unfold maxAgeStep at hx
  split at hx
  · split at hx
    · exact List.mem_of_mem_filter hx
    · exact hx
  · exact hx

theorem requiredTopicsStep_mem (filters : ProjectFilters)
    (l : List GitHubRepository) (x : GitHubRepository)
    (hx : x ∈ requiredTopicsStep filters l) : x ∈ l := by
  unfold requiredTopicsStep at hx
  split at hx
  · split at hx
    · exact List.mem_of_mem_filter hx
    · exact hx
  · exact hx

theorem excludeTopicsStep_mem (filters : ProjectFilters)
    (l : List GitHubRepository) (x : GitHubRepository)
    (hx : x ∈ excludeTopicsStep filters l) : x ∈ l := by
  unfold excludeTopicsStep at hx
  split at hx
  · split at hx
    · exact List.mem_of_mem_filter hx
    · exact hx
  · exact hx

theorem sortStep_mem (filters : ProjectFilters)
    (l : List GitHubRepository) (x : GitHubRepository)
    (hx : x ∈ sortStep filters l) : x ∈ l :=
  List.mem_mergeSort.mp hx

theorem limitStep_mem (filters : ProjectFilters)
    (l : List GitHubRepository) (x : GitHubRepository)
    (hx : x ∈ limitStep filters l) : x ∈ l := by
  unfold limitStep at hx
  split at hx
  · split at hx
    · exact List.mem_of_mem_take hx
    · exact hx
  · exact hx

/-- C10 (amended): `applyProjectFilters` only selects and reorders entries
of its input (it never synthesizes an entry), and a *nonzero* limit bounds
the output length; a limit of `0` is falsy in the source's
`if (filters.limit)` guard and is not applied — and the input list itself
is untouched (the source copies it before sorting; the embedding is pure). -/
theorem applyProjectFilters_selects_and_limits (now : Int)
    (repositories : List GitHubRepository) (filters : ProjectFilters) :
    (∀ repo ∈ applyProjectFilters now repositories filters,
        repo ∈ repositories) ∧
    (∀ n, filters.limit = some n → n ≠ 0 →
        (applyProjectFilters now repositories filters).length ≤ n) := by
  constructor
  · intro repo h
    unfold applyProjectFilters at h
    exact excludeArchivedStep_mem _ _ _
      (excludeForksStep_mem _ _ _
        (minStarsStep_mem _ _ _
          (minForksStep_mem _ _ _
            (maxAgeStep_mem _ _ _ _
              (requiredTopicsStep_mem _ _ _
                (excludeTopicsStep_mem _ _ _
                  (sortStep_mem _ _ _
                    (limitStep_mem _ _ _ h))))))))
  · intro n hn hnz
    unfold applyProjectFilters limitStep
    simp only [hn, ne_eq, hnz, not_false_eq_true, if_true]
    exact List.length_take_le _ _

/-- A concrete live repository used in the counterexamples and witnesses
below. -/
def sampleRepo : GitHubRepository :=
  { name := "sample-repo"
    description := none
    html_url := "https://github.com/Cyrochrome/sample-repo"
    language := some "TypeScript"
    stargazers_count := 1
    watchers_count := 0
    forks_count := 0
    open_issues_count := 0
    size := 10
    topics := []
    created_at := 0
    updated_at := 100
    pushed_at := 100
    archived := false
    disabled := false
    fork := false }

def zeroLimitFilters : ProjectFilters := { limit := some 0 }

def oneLimitFilters : ProjectFilters := { limit := some 1 }

/-- C10 counterexample: with `limit: 0` the limit is given but not applied,
so the output length exceeds the limit — refuting "when a limit is given
the output length is at most that limit". -/
theorem limit_zero_not_applied_example :
    zeroLimitFilters.limit = some 0 ∧
    (applyProjectFilters 0 [sampleRepo] zeroLimitFilters).length = 1 := by
  refine ⟨rfl, ?_⟩
  simp [applyProjectFilters, limitStep, sortStep, excludeTopicsStep,
    requiredTopicsStep, maxAgeStep, minForksStep, minStarsStep,
    excludeForksStep, excludeArchivedStep, zeroLimitFilters, sampleRepo]

theorem applyProjectFilters_selects_and_limits_witness :
    oneLimitFilters.limit = some 1 ∧ 1 ≠ 0 ∧
    (applyProjectFilters 0 [sampleRepo] oneLimitFilters).length ≤ 1 :=
  ⟨rfl, by decide,
    (applyProjectFilters_selects_and_limits 0 [sampleRepo] oneLimitFilters).2
      1 rfl (by decide)⟩

theorem byUpdatedDesc_trans : ∀ a b c : GitHubRepository,
    byUpdatedDesc a b → byUpdatedDesc b c → byUpdatedDesc a c := by
  intro a b c h1 h2
  simp only [byUpdatedDesc, decide_eq_true_eq] at *
  omega

theorem byUpdatedDesc_total : ∀ a b : GitHubRepository,
    byUpdatedDesc a b || byUpdatedDesc b a := by
  intro a b
  simp only [byUpdatedDesc, Bool.or_eq_true, decide_eq_true_eq]
  omega

/-- C8: the repository-list fetch never returns an archived or disabled
repository, and its output is ordered by `updated_at` descending. -/
theorem fetchUserRepositories_filter_and_order (env : GitHubEnv) :
    (∀ repo ∈ fetchUserRepositories env,
        repo.archived = false ∧ repo.disabled = false) ∧
    (fetchUserRepositories env).Pairwise
      (fun a b => b.updated_at ≤ a.updated_at) := by
  unfold fetchUserRepositories
  cases env.userRepos with
  | error e => simp
  | ok repos =>
    constructor
    · intro repo h
      have h2 := List.mem_mergeSort.mp h
      have h3 := List.of_mem_filter h2
      simp only [Bool.and_eq_true, Bool.not_eq_true'] at h3
      exact h3
    · have hs := List.sorted_mergeSort byUpdatedDesc_trans byUpdatedDesc_total
        (repos.filter (fun repo => !repo.archived && !repo.disabled))
      exact hs.imp (fun h => by simpa [byUpdatedDesc] using h)

/-- An archived repository, filtered out of every live listing. -/
def archivedRepo : GitHubRepository :=
  { sampleRepo with name := "old-repo", archived := true }

/-- Environment whose repository listing succeeds with one archived and one
live repository; every detail endpoint fails with a transport error. -/
def envC8 : GitHubEnv :=
  { userRepos := Except.ok [archivedRepo, sampleRepo]
    repoDetails := fun _ => Except.error ⟨none⟩
    repoLanguages := fun _ => Except.error ⟨none⟩
    repoCommits := fun _ => Except.error ⟨none⟩ }

theorem fetchUserRepositories_filter_and_order_witness :
    sampleRepo ∈ fetchUserRepositories envC8 ∧
    sampleRepo.archived = false ∧ sampleRepo.disabled = false := by
  have hmem : sampleRepo ∈ fetchUserRepositories envC8 := by
    simp [fetchUserRepositories, envC8, archivedRepo, sampleRepo]
  exact ⟨hmem, (fetchUserRepositories_filter_and_order envC8).1 sampleRepo hmem⟩

/-- C2: `getGitHubStats` is total (every upstream failure is absorbed into
an empty/zero value by the fetch layer, so the embedding returns a
`GitHubStats` for every environment), and whenever the repository listing
comes back empty every aggregate is its zero/empty value. -/
theorem getGitHubStats_empty_listing_zero_state (env : GitHubEnv)
    (h : fetchUserRepositories env = []) :
    getGitHubStats env =
      { totalRepositories := 0, totalStars := 0, totalForks := 0,
        totalCommits := 0, mostUsedLanguages := [], recentActivity := [],
        repositories := [] } := by
  unfold getGitHubStats recentActivityOf mostUsedLanguagesOf
    accountTotalBytes accountLanguageCounts
  rw [h]
  simp [totalLanguageBytes]

/-- Environment in which every upstream call fails with a transport
error. -/
def envEmpty : GitHubEnv :=
  { userRepos := Except.error ⟨none⟩
    repoDetails := fun _ => Except.error ⟨none⟩
    repoLanguages := fun _ => Except.error ⟨none⟩
    repoCommits := fun _ => Except.error ⟨none⟩ }

theorem getGitHubStats_empty_listing_zero_state_witness :
    fetchUserRepositories envEmpty = [] ∧
    getGitHubStats envEmpty =
      { totalRepositories := 0, totalStars := 0, totalForks := 0,
        totalCommits := 0, mostUsedLanguages := [], recentActivity := [],
        repositories := [] } :=
  ⟨rfl, getGitHubStats_empty_listing_zero_state envEmpty rfl⟩

theorem fetchRepositoryCommits_length_le (env : GitHubEnv) (name : String)
    (limit : Nat) : (fetchRepositoryCommits env name limit).length ≤ limit := by
  unfold fetchRepositoryCommits
  cases env.repoCommits name with
  | ok commits => exact List.length_take_le _ _
  | error e =>
      split
      · simp
      · simp

/-- C7: `getRepositoryStats` is `null` exactly when the base repository
detail lookup is `null`; when the base lookup succeeds, the stats carry
whatever the language/commit fetches produced (empty on their failure, with
a `null` primary language for an empty breakdown) and the recent-commit
window has length at most 5. -/
theorem getRepositoryStats_null_only_on_missing_repo (env : GitHubEnv)
    (name : String) :
    (getRepositoryStats env name = none ↔
        fetchRepositoryDetails env name = none) ∧
    (∀ stats, getRepositoryStats env name = some stats →
        stats.recentCommits.length ≤ 5 ∧
        stats.languages = fetchRepositoryLanguages env name ∧
        stats.recentCommits = fetchRepositoryCommits env name 5 ∧
        (fetchRepositoryLanguages env name = [] →
            stats.languages = [] ∧ stats.language = none)) := by
  cases hd : fetchRepositoryDetails env name with
  | none =>
    constructor
    · simp [getRepositoryStats, hd]
    · intro stats hstats
      simp [getRepositoryStats, hd] at hstats
  | some repo =>
    constructor
    · simp [getRepositoryStats, hd]
    · intro stats hstats
      simp only [getRepositoryStats, hd, Option.some.injEq] at hstats
      subst hstats
      refine ⟨fetchRepositoryCommits_length_le env name 5, rfl, rfl, ?_⟩
      intro hlang
      constructor
      · exact hlang
      · simp [hlang, primaryLanguage, totalLanguageBytes]

/-- Environment whose repository-detail lookup succeeds but whose language
and commit endpoints fail (a server error and a transport error). -/
def envC7 : GitHubEnv :=
  { userRepos := Except.error ⟨none⟩
    repoDetails := fun _ => Except.ok sampleRepo
    repoLanguages := fun _ => Except.error ⟨some 500⟩
    repoCommits := fun _ => Except.error ⟨none⟩ }

/-- The stats computed for `sampleRepo` under `envC7`. -/
def sampleStats : GitHubRepoStats :=
  { stars := 1
    forks := 0
    issues := 0
    watchers := 0
    size := 10
    language := none
    languages := []
    lastUpdated := 100
    createdAt := 0
    recentCommits := [] }

theorem getRepositoryStats_null_only_on_missing_repo_witness :
    getRepositoryStats envC7 "sample-repo" = some sampleStats ∧
    sampleStats.recentCommits.length ≤ 5 ∧ sampleStats.language = none := by
  have h : getRepositoryStats envC7 "sample-repo" = some sampleStats := rfl
  have h2 := (getRepositoryStats_null_only_on_missing_repo envC7
    "sample-repo").2 sampleStats h
  exact ⟨h, h2.1, (h2.2.2.2 rfl).2⟩

theorem map_eq_self_of_eq {α : Type} (f : α → α) :
    ∀ (l : List α), (∀ x ∈ l, f x = x) → l.map f = l
  | [], _ => rfl
  | a :: t, h => by
    rw [List.map_cons, h a (List.mem_cons_self a t),
      map_eq_self_of_eq f t (fun x hx => h x (List.mem_cons_of_mem a hx))]

/-- C3: when every per-entry enhancement attempt yields no stats (the
embedding of "throws or yields no stats": the source's
`getRepositoryStats` cannot itself throw since it absorbs every failure,
and the per-entry try/catch makes a hypothetical throw equivalent to a
`null` result), the catalog equals the static list unchanged; moreover the
output is always either the static list or its entrywise independent
enhancement, so one entry's failure cannot affect another entry. -/
theorem getEnhancedProjects_fallback_independent (env : GitHubEnv) :
    ((∀ name, getRepositoryStats env name = none) →
        getEnhancedProjects env = STATIC_PROJECTS) ∧
    (getEnhancedProjects env = STATIC_PROJECTS ∨
        getEnhancedProjects env =
          STATIC_PROJECTS.map
            (enhanceProject env
              ((fetchUserRepositories env).foldl
                (fun m repo => repoMapSet m repo.name.toLower repo) []))) := by
  constructor
  · intro hfail
    unfold getEnhancedProjects
    dsimp only
    split
    · rfl
    · apply map_eq_self_of_eq
      intro p hp
      unfold enhanceProject
      split
      · rfl
      · split
        · rfl
        · split
          · rfl
          · simp [hfail]
  · unfold getEnhancedProjects
    dsimp only
    split
    · exact Or.inl rfl
    · exact Or.inr rfl

theorem getEnhancedProjects_fallback_independent_witness :
    (∀ name, getRepositoryStats envEmpty name = none) ∧
    getEnhancedProjects envEmpty = STATIC_PROJECTS :=
  ⟨fun _ => rfl,
    (getEnhancedProjects_fallback_independent envEmpty).1 (fun _ => rfl)⟩

theorem displayPriorityLe_trans : ∀ a b c : ProjectConfig,
    displayPriorityLe a b → displayPriorityLe b c → displayPriorityLe a c := by
  intro a b c h1 h2
  simp only [displayPriorityLe, decide_eq_true_eq] at *
  omega

theorem displayPriorityLe_total : ∀ a b : ProjectConfig,
    displayPriorityLe a b || displayPriorityLe b a := by
  intro a b
  simp only [displayPriorityLe, Bool.or_eq_true, decide_eq_true_eq]
  omega

theorem processProjectsForDisplay_sorted (ps : List ProjectConfig) :
    (processProjectsForDisplay ps).Pairwise
      (fun a b => effectivePriority a ≤ effectivePriority b) := by
  unfold processProjectsForDisplay
  have hs := List.sorted_mergeSort displayPriorityLe_trans displayPriorityLe_total
    (ps.filter (fun project => project.featured))
  exact hs.imp (fun h => by simpa [displayPriorityLe] using h)

/-- C6 (amended): the display sort orders featured entries by *effective*
priority ascending, where a missing priority — and, because JS `||` treats
`0` as falsy, also a priority of `0` — defaults to `999`; the sort is
stable (equal-effective-priority entries keep their input order); hence an
entry without a priority appears after every entry whose present, nonzero
priority is below 999, but not necessarily after entries with priority
≥ 999. -/
theorem display_sort_stable_default_priority (ps : List ProjectConfig) :
    (processProjectsForDisplay ps).Pairwise
        (fun a b => effectivePriority a ≤ effectivePriority b) ∧
    (∀ a b : ProjectConfig, effectivePriority a = effectivePriority b →
        List.Sublist [a, b] (ps.filter (fun project => project.featured)) →
        List.Sublist [a, b] (processProjectsForDisplay ps)) ∧
    (processProjectsForDisplay ps).Pairwise
        (fun a b => ¬(a.priority = none ∧
            ∃ p, b.priority = some p ∧ p ≠ 0 ∧ p < 999)) := by
  refine ⟨processProjectsForDisplay_sorted ps, ?_, ?_⟩
  · intro a b heq hsub
    unfold processProjectsForDisplay
    exact List.pair_sublist_mergeSort displayPriorityLe_trans
      displayPriorityLe_total (by simp [displayPriorityLe, heq]) hsub
  · refine (processProjectsForDisplay_sorted ps).imp ?_
    intro a b hle
    rintro ⟨ha, p, hb, hp0, hp999⟩
    have ha2 : effectivePriority a = 999 := by simp [effectivePriority, ha]
    have hb2 : effectivePriority b = p := by simp [effectivePriority, hb, hp0]
    omega

/-- A featured entry with an explicit priority of 1000. -/
def highPriorityEntry : ProjectConfig :=
  { id := "high"
    title := "High"
    description := ""
    technologies := []
    githubUrl := none
    liveUrl := none
    featured := true
    priority := some 1000
    githubData := none }

/-- A featured entry with no priority. -/
def noPriorityEntry : ProjectConfig :=
  { id := "nopriority"
    title := "No priority"
    description := ""
    technologies := []
    githubUrl := none
    liveUrl := none
    featured := true
    priority := none
    githubData := none }

/-- C6 counterexample: the entry *without* a priority (default 999) sorts
*before* the entry with priority 1000, refuting "every entry without a
priority value appears after every entry that has one". -/
theorem no_priority_sorts_before_priority_1000 :
    highPriorityEntry.priority = some 1000 ∧
    noPriorityEntry.priority = none ∧
    processProjectsForDisplay [highPriorityEntry, noPriorityEntry] =
      [noPriorityEntry, highPriorityEntry] := by
  refine ⟨rfl, rfl, ?_⟩
  unfold processProjectsForDisplay
  have hfil : [highPriorityEntry, noPriorityEntry].filter
      (fun project => project.featured) =
      [highPriorityEntry, noPriorityEntry] := rfl
  rw [hfil, mergeSort_pair]
  norm_num [displayPriorityLe, effectivePriority, highPriorityEntry,
    noPriorityEntry]

/-- First of two equal-priority featured entries. -/
def firstEqualEntry : ProjectConfig :=
  { highPriorityEntry with id := "first", priority := some 5 }

/-- Second of two equal-priority featured entries. -/
def secondEqualEntry : ProjectConfig :=
  { highPriorityEntry with id := "second", priority := some 5 }

theorem display_sort_stable_default_priority_witness :
    effectivePriority firstEqualEntry = effectivePriority secondEqualEntry ∧
    List.Sublist [firstEqualEntry, secondEqualEntry]
      (processProjectsForDisplay [firstEqualEntry, secondEqualEntry]) := by
  have heq : effectivePriority firstEqualEntry =
      effectivePriority secondEqualEntry := rfl
  have hfil : [firstEqualEntry, secondEqualEntry].filter
      (fun project => project.featured) =
      [firstEqualEntry, secondEqualEntry] := rfl
  have hsub : List.Sublist [firstEqualEntry, secondEqualEntry]
      ([firstEqualEntry, secondEqualEntry].filter
        (fun project => project.featured)) := by
    rw [hfil]
  exact ⟨heq,
    (display_sort_stable_default_priority
      [firstEqualEntry, secondEqualEntry]).2.1
      firstEqualEntry secondEqualEntry heq hsub⟩

/-- C5 (amended): every converted entry carries priority `stars×10 +
forks×5`, and the default display sort orders ascending by effective
priority — so between two featured converted entries with nonzero
engagement scores, the one with the strictly *smaller* score precedes the
other: higher engagement sorts last, the direction conflict recorded in the
spec's Design Notes. -/
theorem converted_priority_display_direction :
    (∀ repo : GitHubRepository,
        (convertGitHubRepoToProject repo).priority =
          some ((repo.stargazers_count : Int) * 10 +
            (repo.forks_count : Int) * 5)) ∧
    (∀ ps : List ProjectConfig,
        (processProjectsForDisplay ps).Pairwise
          (fun a b => effectivePriority a ≤ effectivePriority b)) ∧
    (∀ repo : GitHubRepository,
        (repo.stargazers_count : Int) * 10 + (repo.forks_count : Int) * 5 ≠ 0 →
        effectivePriority (convertGitHubRepoToProject repo) =
          (repo.stargazers_count : Int) * 10 + (repo.forks_count : Int) * 5) := by
  refine ⟨fun repo => rfl, processProjectsForDisplay_sorted, ?_⟩
  intro repo h
  simp [convertGitHubRepoToProject, effectivePriority, h]

/-- A live repository with two stars. -/
def repoTwoStars : GitHubRepository :=
  { sampleRepo with name := "two-stars", stargazers_count := 2 }

/-- C5 counterexample: two featured converted entries with engagement
scores 10 and 20; the display order keeps the smaller score first, so the
entry with the strictly greater score does *not* precede the other. -/
theorem higher_engagement_sorts_last :
    (convertGitHubRepoToProject sampleRepo).priority = some 10 ∧
    (convertGitHubRepoToProject repoTwoStars).priority = some 20 ∧
    (convertGitHubRepoToProject sampleRepo).featured = true ∧
    (convertGitHubRepoToProject repoTwoStars).featured = true ∧
    processProjectsForDisplay
      [convertGitHubRepoToProject sampleRepo,
        convertGitHubRepoToProject repoTwoStars] =
      [convertGitHubRepoToProject sampleRepo,
        convertGitHubRepoToProject repoTwoStars] := by
  refine ⟨rfl, rfl, rfl, rfl, ?_⟩
  unfold processProjectsForDisplay
  have hfil : [convertGitHubRepoToProject sampleRepo,
      convertGitHubRepoToProject repoTwoStars].filter
      (fun project => project.featured) =
      [convertGitHubRepoToProject sampleRepo,
        convertGitHubRepoToProject repoTwoStars] := rfl
  rw [hfil, mergeSort_pair]
  norm_num [displayPriorityLe, effectivePriority, convertGitHubRepoToProject,
    repoTwoStars, sampleRepo]

theorem converted_priority_display_direction_witness :
    ((sampleRepo.stargazers_count : Int) * 10 +
        (sampleRepo.forks_count : Int) * 5 ≠ 0) ∧
    effectivePriority (convertGitHubRepoToProject sampleRepo) =
      (sampleRepo.stargazers_count : Int) * 10 +
        (sampleRepo.forks_count : Int) * 5 :=
  ⟨by norm_num [sampleRepo],
    converted_priority_display_direction.2.2 sampleRepo
      (by norm_num [sampleRepo])⟩

theorem init_le_foldl_add (l : List Nat) (acc : Nat) :
    acc ≤ l.foldl (fun sum bytes => sum + bytes) acc := by
  induction l generalizing acc with
  | nil => exact Nat.le_refl _
  | cons y t ih =>
      rw [List.foldl_cons]
      exact Nat.le_trans (Nat.le_add_right _ _) (ih (acc + y))

theorem mem_le_foldl_add : ∀ (l : List Nat) (x : Nat), x ∈ l →
    ∀ acc, x ≤ l.foldl (fun sum bytes => sum + bytes) acc
  | [], x, hx, _ => absurd hx (List.not_mem_nil x)
  | y :: t, x, hx, acc => by
      rw [List.foldl_cons]
      rcases List.mem_cons.mp hx with rfl | hx2
      · exact Nat.le_trans (Nat.le_add_left _ _) (init_le_foldl_add t (acc + x))
      · exact mem_le_foldl_add t x hx2 (acc + y)

theorem mem_le_totalLanguageBytes (l : GitHubLanguage) (p : String × Nat)
    (hp : p ∈ l) : p.2 ≤ totalLanguageBytes l := by
  unfold totalLanguageBytes
  exact mem_le_foldl_add _ _ (List.mem_map_of_mem _ hp) 0

theorem byCountDesc_trans : ∀ a b c : LanguageStat,
    byCountDesc a b → byCountDesc b c → byCountDesc a c := by
  intro a b c h1 h2
  simp only [byCountDesc, decide_eq_true_eq] at *
  omega

theorem byCountDesc_total : ∀ a b : LanguageStat,
    byCountDesc a b || byCountDesc b a := by
  intro a b
  simp only [byCountDesc, Bool.or_eq_true, decide_eq_true_eq]
  omega

theorem ranked_languages_spec (C : List (String × Nat)) :
    (∀ e ∈ ((C.map (fun p =>
        ({ language := p.1
           count := p.2
           percentage := if totalLanguageBytes C > 0
             then ((p.2 : ℚ) / ((totalLanguageBytes C : ℚ))) * 100 else 0 }
          : LanguageStat))).mergeSort byCountDesc).take 10,
        (0 < totalLanguageBytes C →
            e.percentage = ((e.count : ℚ) / (totalLanguageBytes C : ℚ)) * 100) ∧
        (totalLanguageBytes C = 0 → e.percentage = 0) ∧
        0 ≤ e.percentage ∧ e.percentage ≤ 100) ∧
    (((C.map (fun p =>
        ({ language := p.1
           count := p.2
           percentage := if totalLanguageBytes C > 0
             then ((p.2 : ℚ) / ((totalLanguageBytes C : ℚ))) * 100 else 0 }
          : LanguageStat))).mergeSort byCountDesc).take 10).Pairwise
      (fun a b => b.count ≤ a.count) ∧
    (((C.map (fun p =>
        ({ language := p.1
           count := p.2
           percentage := if totalLanguageBytes C > 0
             then ((p.2 : ℚ) / ((totalLanguageBytes C : ℚ))) * 100 else 0 }
          : LanguageStat))).mergeSort byCountDesc).take 10).length ≤ 10 := by
  refine ⟨?_, ?_, ?_⟩
  · intro e he
    have he3 := List.mem_mergeSort.mp (List.mem_of_mem_take he)
    obtain ⟨p, hp, rfl⟩ := List.mem_map.mp he3
    have hple : p.2 ≤ totalLanguageBytes C := mem_le_totalLanguageBytes C p hp
    dsimp only
    refine ⟨?_, ?_, ?_, ?_⟩
    · intro hpos
      rw [if_pos hpos]
    · intro h0
      rw [if_neg (by omega)]
    · by_cases hpos : totalLanguageBytes C > 0
      · rw [if_pos hpos]
        positivity
      · rw [if_neg hpos]
    · by_cases hpos : totalLanguageBytes C > 0
      · rw [if_pos hpos]
        have hT : (0 : ℚ) < (totalLanguageBytes C : ℚ) := by exact_mod_cast hpos
        have hple2 : (p.2 : ℚ) ≤ (totalLanguageBytes C : ℚ) := by
          exact_mod_cast hple
        rw [div_mul_eq_mul_div, div_le_iff₀ hT]
        nlinarith
      · rw [if_neg hpos]
        norm_num
  · have hs := List.sorted_mergeSort byCountDesc_trans byCountDesc_total
      (C.map (fun p =>
        ({ language := p.1
           count := p.2
           percentage := if totalLanguageBytes C > 0
             then ((p.2 : ℚ) / ((totalLanguageBytes C : ℚ))) * 100 else 0 }
          : LanguageStat)))
    have hsub := List.take_sublist 10
      ((C.map (fun p =>
        ({ language := p.1
           count := p.2
           percentage := if totalLanguageBytes C > 0
             then ((p.2 : ℚ) / ((totalLanguageBytes C : ℚ))) * 100 else 0 }
          : LanguageStat))).mergeSort byCountDesc)
    exact (hs.sublist hsub).imp (fun h => by simpa [byCountDesc] using h)
  · exact List.length_take_le _ _

/-- C9: every reported language percentage equals `bytes/total*100` when
the merged byte total is positive (and is 0 when the total is 0), lies in
`[0, 100]`, and the ranked list is sorted by byte count descending and has
at most 10 entries. -/
theorem mostUsedLanguages_percentages (env : GitHubEnv) :
    (∀ e ∈ (getGitHubStats env).mostUsedLanguages,
        (0 < accountTotalBytes env (fetchUserRepositories env) →
            e.percentage = ((e.count : ℚ) /
              (accountTotalBytes env (fetchUserRepositories env) : ℚ)) * 100) ∧
        (accountTotalBytes env (fetchUserRepositories env) = 0 →
            e.percentage = 0) ∧
        0 ≤ e.percentage ∧ e.percentage ≤ 100) ∧
    (getGitHubStats env).mostUsedLanguages.Pairwise
      (fun a b => b.count ≤ a.count) ∧
    (getGitHubStats env).mostUsedLanguages.length ≤ 10 := by
  have hview : (getGitHubStats env).mostUsedLanguages =
      (((accountLanguageCounts env (fetchUserRepositories env)).map (fun p =>
        ({ language := p.1
           count := p.2
           percentage := if totalLanguageBytes
               (accountLanguageCounts env (fetchUserRepositories env)) > 0
             then ((p.2 : ℚ) / ((totalLanguageBytes
               (accountLanguageCounts env (fetchUserRepositories env)) : ℚ))) *
               100 else 0 }
          : LanguageStat))).mergeSort byCountDesc).take 10 := rfl
  have hmain := ranked_languages_spec
    (accountLanguageCounts env (fetchUserRepositories env))
  rw [hview]
  exact hmain

/-- Environment with one live repository whose language breakdown is
`{TS: 200}`. -/
def envC9 : GitHubEnv :=
  { userRepos := Except.ok [sampleRepo]
    repoDetails := fun _ => Except.error ⟨none⟩
    repoLanguages := fun _ => Except.ok [("TS", 200)]
    repoCommits := fun _ => Except.error ⟨none⟩ }

theorem mostUsedLanguages_percentages_witness :
    (⟨"TS", 200, 100⟩ : LanguageStat) ∈
      (getGitHubStats envC9).mostUsedLanguages ∧
    (0 : ℚ) ≤ (100 : ℚ) ∧ (100 : ℚ) ≤ 100 := by
  have hrepos : fetchUserRepositories envC9 = [sampleRepo] := by
    simp [fetchUserRepositories, envC9, sampleRepo]
  have hcounts : accountLanguageCounts envC9 (fetchUserRepositories envC9) =
      [("TS", 200)] := by
    rw [hrepos]
    rfl
  have hml : (getGitHubStats envC9).mostUsedLanguages =
      [⟨"TS", 200, 100⟩] := by
    have h1 : (getGitHubStats envC9).mostUsedLanguages =
        mostUsedLanguagesOf envC9 (fetchUserRepositories envC9) := rfl
    rw [h1]
    unfold mostUsedLanguagesOf accountTotalBytes
    rw [hcounts]
    norm_num [totalLanguageBytes]
  have hmem : (⟨"TS", 200, 100⟩ : LanguageStat) ∈
      (getGitHubStats envC9).mostUsedLanguages := by
    rw [hml]
    exact List.mem_singleton_self _
  have h := (mostUsedLanguages_percentages envC9).1 _ hmem
  exact ⟨hmem, h.2.2.1, h.2.2.2⟩

theorem jsIncludes_prefix_slash (repo : String) :
    jsIncludes ("Cyrochrome/" ++ repo) "/" = true := by
  unfold jsIncludes
  rw [decide_eq_true_eq, String.data_append]
  have h1 : "/".data <:+: "Cyrochrome/".data := by decide
  exact h1.trans (List.prefix_append _ _).isInfix

theorem fullRepoName_has_slash (repo : String) :
    jsIncludes (fullRepoName repo) "/" = true := by
  unfold fullRepoName
  split
  · rename_i hsl
    exact hsl
  · exact jsIncludes_prefix_slash repo

theorem getRepositoryStats_none_iff (env : GitHubEnv) (name : String) :
    getRepositoryStats env name = none ↔
      fetchRepositoryDetails env name = none := by
  unfold getRepositoryStats
  cases hd : fetchRepositoryDetails env name <;> simp [hd]

theorem details_error_stats_none (env : GitHubEnv) (name : String)
    (e : ApiFailure) (h : env.repoDetails name = Except.error e) :
    getRepositoryStats env name = none := by
  rw [getRepositoryStats_none_iff]
  unfold fetchRepositoryDetails
  rw [h]
  split
  · rename_i heq
    simp at heq
  · split
    · rfl
    · rfl

/-- C1 (amended): for a non-blank repository name the handler only ever
answers 200 or 404, and it answers 404 with `success: false` exactly when
repository resolution yields `null` — which includes every upstream
network/transport or rate-limit failure, because the fetch layer absorbs
those into a `null` resolution before they can reach the handler's catch
block.  The catch block's 503/429/500 dispatch (on escaped error messages
mentioning `fetch` or `rate limit`) exists but is unreachable for upstream
failures. -/
theorem repos_route_failure_statuses (env : GitHubEnv) (repo : String)
    (h : repo.data.all Char.isWhitespace = false) :
    ((getGithubRepoRoute env repo).status = 404 ∧
        (getGithubRepoRoute env repo).success = false ↔
        getRepositoryStats env (fullRepoName repo) = none) ∧
    ((getGithubRepoRoute env repo).status = 200 ∨
        (getGithubRepoRoute env repo).status = 404) ∧
    (∀ e : ApiFailure, env.repoDetails (fullRepoName repo) = Except.error e →
        (getGithubRepoRoute env repo).status = 404) ∧
    routeCatchStatus "fetch failed" = 503 ∧
    routeCatchStatus "API rate limit exceeded" = 429 ∧
    routeCatchStatus "boom" = 500 := by
  have hroute : getGithubRepoRoute env repo =
      match getRepositoryStats env (fullRepoName repo) with
      | none =>
          { status := 404, success := false
            error := some "Repository not found or inaccessible", data := none }
      | some stats =>
          { status := 200, success := true, error := none, data := some stats } := by
    unfold getGithubRepoRoute
    rw [if_neg (by simp [h])]
    dsimp only
    rw [fullRepoName_has_slash]
    simp
  cases hs : getRepositoryStats env (fullRepoName repo) with
  | none =>
    rw [hroute, hs]
    refine ⟨by simp, Or.inr rfl, fun e he => rfl, by decide, by decide, by decide⟩
  | some stats =>
    rw [hroute, hs]
    refine ⟨by simp, Or.inl rfl, ?_, by decide, by decide, by decide⟩
    intro e he
    rw [details_error_stats_none env (fullRepoName repo) e he] at hs
    cases hs

/-- C1 counterexample: with the upstream failing with a transport error
(no HTTP status) for every call, `GET /api/github/repos/ghost` answers
HTTP 404, not the HTTP 503 the claim requires for network failures. -/
theorem repos_route_network_error_gives_404 :
    envEmpty.repoDetails "Cyrochrome/ghost" = Except.error ⟨none⟩ ∧
    (getGithubRepoRoute envEmpty "ghost").status = 404 ∧
    (getGithubRepoRoute envEmpty "ghost").status ≠ 503 ∧
    (getGithubRepoRoute envEmpty "ghost").error =
      some "Repository not found or inaccessible" := by
  have hr : getGithubRepoRoute envEmpty "ghost" =
      { status := 404, success := false
        error := some "Repository not found or inaccessible", data := none } := by
    unfold getGithubRepoRoute
    rw [if_neg (by decide)]
    dsimp only
    rw [fullRepoName_has_slash]
    simp only [Bool.not_true, Bool.false_eq_true, if_false]
    rfl
  refine ⟨rfl, by rw [hr], by rw [hr]; decide, by rw [hr]⟩

theorem repos_route_failure_statuses_witness :
    "ghost".data.all Char.isWhitespace = false ∧
    ((getGithubRepoRoute envEmpty "ghost").status = 200 ∨
        (getGithubRepoRoute envEmpty "ghost").status = 404) :=
  ⟨by decide,
    (repos_route_failure_statuses envEmpty "ghost" (by decide)).2.1⟩
